import Mathlib

/-!
Verification development for the `arabic-text-aligner-and-translator`
repository.

The repository is a TypeScript browser application with three parts:

* `services/geminiService.ts` — `translateAndAlignText`, a thin adapter that
  sends the source text to a hosted model, parses the JSON response and
  returns the parsed value cast to `TranslationPair[]`;
* `services/pdfService.ts` — `sanitizeFilename`, `toTitleCase` and
  `exportToWord`, which assembles a landscape two-column Word document and
  triggers a download (a second variant of this file exists in the
  repository, embedded below under the `Part000` namespace, whose body
  cells split segment text on line breaks via `createParagraphsFromText`);
* `App.tsx` — the UI state and the `handleTranslate` / `handleExport`
  actions.

Pure string helpers are embedded as Lean functions on `String` / `List Char`.
Effectful code (React state updates, `console.error`, `saveAs`, the
asynchronous `Packer.toBlob`) is embedded by explicit state passing: each
handler maps a state plus the outcome of its external calls to a new state
together with a record of its observable actions.  External failure points
(the network call, document assembly inside the `docx` library, blob
packing) are supplied as explicit outcome parameters.
-/

/-! ## JavaScript character fragment

JavaScript string case conversion (`toLowerCase` / `toUpperCase`) uses the
full Unicode case tables.  The embedding models the fragment exercised by
this repository: ASCII letters map by the usual table, and U+00DF (ß)
uppercases to the two-letter sequence "SS" (Unicode special casing, which
JavaScript implements).  All other characters are left unchanged; none of
the theorems below depends on the case mapping of characters outside this
fragment. -/

/-- Lowercasing of one character (JavaScript `toLowerCase`, restricted to
the fragment described above; lowercasing maps each character to a single
character on this fragment). -/
def charToLowerJs (c : Char) : Char :=
  if 65 ≤ c.toNat ∧ c.toNat ≤ 90 then Char.ofNat (c.toNat + 32) else c

/-- Uppercasing of one character (JavaScript `toUpperCase`, restricted to
the fragment described above).  The result is a character sequence because
`'ß'.toUpperCase() === "SS"` in JavaScript. -/
def charToUpperJs (c : Char) : List Char :=
  if 97 ≤ c.toNat ∧ c.toNat ≤ 122 then [Char.ofNat (c.toNat - 32)]
  else if c = 'ß' then ['S', 'S']
  else [c]

/-- The JavaScript whitespace class: the characters matched by the regular
expression class `\s` (which, for the strings handled here, coincides with
the set trimmed by `String.prototype.trim`). -/
def isJsWs (c : Char) : Bool :=
  c = ' ' ∨ c = '\t' ∨ c = '\n' ∨ c = '\r' ∨ c = '\x0b' ∨ c = '\x0c' ∨
  c.toNat = 0xa0 ∨ c.toNat = 0x1680 ∨
  (0x2000 ≤ c.toNat ∧ c.toNat ≤ 0x200a) ∨
  c.toNat = 0x2028 ∨ c.toNat = 0x2029 ∨ c.toNat = 0x202f ∨
  c.toNat = 0x205f ∨ c.toNat = 0x3000 ∨ c.toNat = 0xfeff

/-- JavaScript `String.prototype.trim`: drop whitespace from both ends. -/
def jsTrim (s : String) : String :=
  String.mk (((s.data.dropWhile isJsWs).reverse.dropWhile isJsWs).reverse)

/-! ## The segment-pair data model (`types.ts`) -/

/-- One aligned segment: `{ arabic: string; english: string }`. -/
structure TranslationPair where
  arabic : String
  english : String
deriving DecidableEq, Repr

/-! ## `sanitizeFilename` (services/pdfService.ts, lines 20-22)

`name.replace(/[^a-z0-9\s-]/gi, '').trim().replace(/\s+/g, ' ').slice(0, 50)
 || 'translation'` -/

/-- The character class kept by the first `replace`: `[a-z0-9\s-]` with the
case-insensitive flag. -/
def keepChar (c : Char) : Bool :=
  ('a' ≤ c ∧ c ≤ 'z') ∨ ('A' ≤ c ∧ c ≤ 'Z') ∨ ('0' ≤ c ∧ c ≤ '9') ∨
  c = '-' ∨ isJsWs c

/-- `replace(/\s+/g, ' ')`: each maximal run of whitespace becomes a single
space.  The boolean argument records whether the previous character was
part of a whitespace run. -/
def collapseWsAux : Bool → List Char → List Char
  | _, [] => []
  | inRun, c :: rest =>
    if isJsWs c then
      if inRun then collapseWsAux true rest
      else ' ' :: collapseWsAux true rest
    else c :: collapseWsAux false rest

/-- Trim whitespace from both ends of a character list. -/
def trimWsList (l : List Char) : List Char :=
  ((l.dropWhile isJsWs).reverse.dropWhile isJsWs).reverse

/-- `sanitizeFilename` from services/pdfService.ts (the identical helper
also appears in the second exporter variant). -/
def sanitizeFilename (name : String) : String :=
  let kept := name.data.filter keepChar
  let collapsed := collapseWsAux false (trimWsList kept)
  let sliced := collapsed.take 50
  if sliced = [] then "translation" else String.mk sliced

/-! ## `toTitleCase` (services/pdfService.ts, lines 25-32)

`if (!str) return '';
 return str.toLowerCase().split(' ')
   .map(word => word.charAt(0).toUpperCase() + word.slice(1)).join(' ');` -/

/-- `word.charAt(0).toUpperCase() + word.slice(1)`; on the empty word both
`charAt(0)` and `slice(1)` are the empty string. -/
def capWord : List Char → List Char
  | [] => []
  | c :: rest => charToUpperJs c ++ rest

/-- `toTitleCase` from services/pdfService.ts.  `split(' ')` splits on the
single ASCII space character only. -/
def toTitleCase (s : String) : String :=
  if s = "" then ""
  else
    String.mk ([' '].intercalate
      (((s.data.map charToLowerJs).splitOn ' ').map capWord))

/-! ## Document model (the `docx` library surface used by the exporters)

Only the constructor arguments the repository passes are modelled; the
binary layout produced by the library is out of scope. -/

/-- `AlignmentType` values used by the exporters. -/
inductive AlignmentType where
  | center
  | left
  | right
deriving DecidableEq, Repr

/-- One `TextRun`. -/
structure TextRun where
  text : String
  font : String
  size : Nat
  bold : Bool
  underline : Bool
  rtl : Bool
deriving DecidableEq, Repr

/-- One `Paragraph`.  `Paragraph({ text: '' })` (the spacer) is modelled as
a paragraph with no alignment and no runs. -/
structure Paragraph where
  alignment : Option AlignmentType
  bidirectional : Bool
  children : List TextRun
deriving DecidableEq, Repr

/-- One `TableCell` (`verticalAlign` is always `TOP` here, so only the
paragraph list is recorded). -/
structure TableCell where
  children : List Paragraph
deriving DecidableEq, Repr

/-- One `TableRow`: the Arabic cell followed by the English cell. -/
structure TableRow where
  cantSplit : Bool
  cells : List TableCell
deriving DecidableEq, Repr

/-- The body `Table`. -/
structure DocTable where
  rows : List TableRow
  width : Nat
  columnWidths : List Nat
deriving DecidableEq, Repr

/-- A child of the document section: a paragraph or the body table. -/
inductive DocChild where
  | para (p : Paragraph)
  | table (t : DocTable)
deriving DecidableEq, Repr

/-- The single document section with its page geometry (landscape US
Letter, 0.5 inch margins, both exporters use the same numbers). -/
structure DocSection where
  pageWidth : Nat
  pageHeight : Nat
  landscape : Bool
  margin : Nat
  children : List DocChild
deriving DecidableEq, Repr

/-- The assembled `Document`. -/
structure Document where
  sections : List DocSection
deriving DecidableEq, Repr

/-- Everything `exportToWord` observably does: messages written with
`console.error`, the assembled document (`none` when assembly never ran),
the filenames passed to `saveAs`, and a synchronous exception propagated
to the caller (`none` when the call returns normally). -/
structure ExportAction where
  consoleLogs : List String
  doc : Option Document
  downloads : List String
  thrown : Option String
deriving DecidableEq, Repr

/-! ## `exportToWord` (services/pdfService.ts, lines 34-151)

This variant puts each cell text into a single paragraph holding one text
run.  `assembleErr` injects a failure of the synchronous document-assembly
stage (an exception thrown by the external `docx` constructors), `packErr`
a failure of the asynchronous `Packer.toBlob` stage; `none` means the
stage succeeds. -/

namespace PdfService

/-- Font constants: `FONT_FAMILY = 'Arial'`, half-point size `24 * 2`. -/
def fontFamily : String := "Arial"

/-- `FONT_SIZE_HALF_PT = FONT_SIZE_PT * 2` with `FONT_SIZE_PT = 24`. -/
def fontSizeHalfPt : Nat := 48

/-- The centered, bold, underlined, right-to-left Arabic title paragraph. -/
def arabicTitle (titlePair : TranslationPair) : Paragraph :=
  { alignment := some AlignmentType.center
    bidirectional := true
    children := [{ text := titlePair.arabic, font := fontFamily,
                   size := fontSizeHalfPt, bold := true, underline := true,
                   rtl := true }] }

/-- The centered, bold, underlined, title-cased English title paragraph. -/
def englishTitle (titlePair : TranslationPair) : Paragraph :=
  { alignment := some AlignmentType.center
    bidirectional := false
    children := [{ text := toTitleCase titlePair.english, font := fontFamily,
                   size := fontSizeHalfPt, bold := true, underline := true,
                   rtl := false }] }

/-- `new Paragraph({ text: '' })`. -/
def spacer : Paragraph :=
  { alignment := none, bidirectional := false, children := [] }

/-- `bodyPairs = data.length > 1 ? data.slice(1) : []`. -/
def bodyPairs (data : List TranslationPair) : List TranslationPair :=
  if 1 < data.length then data.drop 1 else []

/-- The function mapped over `bodyPairs` at lines 77-105: one row with an
Arabic cell and an English cell, each holding a single paragraph with a
single run carrying the full (possibly multi-line) segment text. -/
def tableRowOfPair (pair : TranslationPair) : TableRow :=
  { cantSplit := false
    cells := [
      { children := [{ alignment := none, bidirectional := true,
                       children := [{ text := pair.arabic, font := fontFamily,
                                      size := fontSizeHalfPt, bold := false,
                                      underline := false, rtl := true }] }] },
      { children := [{ alignment := some AlignmentType.left, bidirectional := false,
                       children := [{ text := pair.english, font := fontFamily,
                                      size := fontSizeHalfPt, bold := false,
                                      underline := false, rtl := false }] }] }] }

/-- `tableRows = bodyPairs.map(pair => new TableRow({...}))`. -/
def tableRows (data : List TranslationPair) : List TableRow :=
  (bodyPairs data).map tableRowOfPair

/-- The body table: full usable width (14400 twips) split evenly. -/
def bodyTable (data : List TranslationPair) : DocTable :=
  { rows := tableRows data, width := 14400, columnWidths := [7200, 7200] }

/-- The assembled document: title paragraphs, spacer, and the body table
exactly when `bodyPairs` is nonempty (lines 120-141). -/
def assembleDoc (data : List TranslationPair) (titlePair : TranslationPair) :
    Document :=
  { sections := [
      { pageWidth := 15840, pageHeight := 12240, landscape := true,
        margin := 720
        children :=
          [DocChild.para (arabicTitle titlePair),
           DocChild.para (englishTitle titlePair),
           DocChild.para spacer] ++
          (if (bodyPairs data).length > 0 then [DocChild.table (bodyTable data)]
           else []) }] }

/-- The filename handed to `saveAs`:
`${sanitizeFilename(englishTitleText)} (Arabic + English).docx`. -/
def filenameFor (titlePair : TranslationPair) : String :=
  sanitizeFilename (toTitleCase titlePair.english) ++ " (Arabic + English).docx"

/-- `exportToWord` itself.  An empty sequence returns after logging (lines
35-38).  A synchronous assembly failure propagates to the caller before
anything observable happens.  A packing failure is caught by the promise
`.catch` and only logged (lines 148-150); on success `saveAs` receives the
derived filename (lines 144-147). -/
def exportToWord (data : List TranslationPair)
    (assembleErr packErr : Option String) : ExportAction :=
  if data.length = 0 then
    { consoleLogs := ["No data available to export."], doc := none,
      downloads := [], thrown := none }
  else
    match assembleErr with
    | some e => { consoleLogs := [], doc := none, downloads := [],
                  thrown := some e }
    | none =>
      let titlePair := data.headD { arabic := "", english := "" }
      let doc := assembleDoc data titlePair
      match packErr with
      | some e =>
        { consoleLogs := ["Error generating Word document: " ++ e],
          doc := some doc, downloads := [], thrown := none }
      | none =>
        { consoleLogs := [], doc := some doc,
          downloads := [filenameFor titlePair], thrown := none }

end PdfService

/-! ## Line splitting: `text.split(/\r?\n/)`

`splitNl` splits on `'\n'`; dropping one trailing `'\r'` from every piece
except the last then makes the separator exactly `\r?\n`. -/

/-- Split a character list on `'\n'`; the newline characters are consumed. -/
def splitNl : List Char → List (List Char)
  | [] => [[]]
  | c :: rest =>
    if c = '\n' then [] :: splitNl rest
    else
      match splitNl rest with
      | [] => [[c]]
      | w :: ws => (c :: w) :: ws

/-- Drop a single trailing `'\r'`, if present. -/
def dropTrailCr (l : List Char) : List Char :=
  match l.getLast? with
  | some '\r' => l.dropLast
  | _ => l

/-- Apply `f` to every element except the last. -/
def mapButLast (f : List Char → List Char) : List (List Char) → List (List Char)
  | [] => []
  | [a] => [a]
  | a :: b :: rest => f a :: mapButLast f (b :: rest)

/-- `text.split(/\r?\n/)` on the character list of `text`. -/
def splitCrNl (l : List Char) : List (List Char) :=
  mapButLast dropTrailCr (splitNl l)

/-! ## The second exporter variant (src/unnamed/part_000)

Identical to services/pdfService.ts except that body-cell text is split on
line breaks into one paragraph per line by `createParagraphsFromText`
(lines 51-62), the Arabic cell is right-aligned instead of bidirectional,
and rows set `cantSplit`. -/

namespace Part000

/-- `createParagraphsFromText` (part_000, lines 51-62): split the text on
`/\r?\n/` and give every line its own paragraph whose single run carries
the trimmed line. -/
def createParagraphsFromText (text : String) (isRtl : Bool)
    (alignment : AlignmentType) : List Paragraph :=
  (splitCrNl text.data).map fun line =>
    { alignment := some alignment
      bidirectional := false
      children := [{ text := jsTrim (String.mk line), font := PdfService.fontFamily,
                     size := PdfService.fontSizeHalfPt, bold := false,
                     underline := false, rtl := isRtl }] }

/-- `bodyPairs = data.length > 1 ? data.slice(1) : []`. -/
def bodyPairs (data : List TranslationPair) : List TranslationPair :=
  if 1 < data.length then data.drop 1 else []

/-- The function mapped over `bodyPairs` at lines 91-105: a `cantSplit` row
whose Arabic cell holds the right-aligned RTL paragraphs and whose English
cell holds the left-aligned paragraphs of the pair. -/
def tableRowOfPair (pair : TranslationPair) : TableRow :=
  { cantSplit := true
    cells := [
      { children := createParagraphsFromText pair.arabic true AlignmentType.right },
      { children := createParagraphsFromText pair.english false AlignmentType.left }] }

/-- `tableRows = bodyPairs.map(pair => new TableRow({...}))`. -/
def tableRows (data : List TranslationPair) : List TableRow :=
  (bodyPairs data).map tableRowOfPair

/-- The body table (part_000, lines 110-114). -/
def bodyTable (data : List TranslationPair) : DocTable :=
  { rows := tableRows data, width := 14400, columnWidths := [7200, 7200] }

/-- The Arabic title paragraph of part_000 (lines 65-75): unlike the
services/pdfService.ts variant it does not set `bidirectional`. -/
def arabicTitle (titlePair : TranslationPair) : Paragraph :=
  { alignment := some AlignmentType.center
    bidirectional := false
    children := [{ text := titlePair.arabic, font := PdfService.fontFamily,
                   size := PdfService.fontSizeHalfPt, bold := true,
                   underline := true, rtl := true }] }

/-- The assembled document (part_000, lines 117-136); the English title
paragraph and the spacer coincide with the services/pdfService.ts ones. -/
def assembleDoc (data : List TranslationPair) (titlePair : TranslationPair) :
    Document :=
  { sections := [
      { pageWidth := 15840, pageHeight := 12240, landscape := true,
        margin := 720
        children :=
          [DocChild.para (arabicTitle titlePair),
           DocChild.para (PdfService.englishTitle titlePair),
           DocChild.para PdfService.spacer] ++
          (if (bodyPairs data).length > 0 then [DocChild.table (bodyTable data)]
           else []) }] }

/-- `exportToWord` (part_000, lines 33-146); control flow is identical to
the services/pdfService.ts variant. -/
def exportToWord (data : List TranslationPair)
    (assembleErr packErr : Option String) : ExportAction :=
  if data.length = 0 then
    { consoleLogs := ["No data available to export."], doc := none,
      downloads := [], thrown := none }
  else
    match assembleErr with
    | some e => { consoleLogs := [], doc := none, downloads := [],
                  thrown := some e }
    | none =>
      let titlePair := data.headD { arabic := "", english := "" }
      let doc := assembleDoc data titlePair
      match packErr with
      | some e =>
        { consoleLogs := ["Error generating Word document: " ++ e],
          doc := some doc, downloads := [], thrown := none }
      | none =>
        { consoleLogs := [], doc := some doc,
          downloads := [PdfService.filenameFor titlePair], thrown := none }

end Part000

/-! ## JSON values and `JSON.parse`

`translateAndAlignText` parses the service response text with the
platform's `JSON.parse` and returns the parsed value unchanged (the
TypeScript `as TranslationPair[]` cast performs no runtime check).
`JSON.parse` is a platform builtin; it is embedded below as a standard
recursive-descent JSON parser.  Numbers are kept as their literal digits
(no float semantics is needed: no theorem inspects a numeric value), and a
`\uXXXX` escape denoting a lone surrogate is outside the modelled
fragment. -/

/-- A JSON value. -/
inductive Json where
  | null
  | bool (b : Bool)
  | num (raw : String)
  | str (s : String)
  | arr (elems : List Json)
  | obj (fields : List (String × Json))

/-- JSON insignificant whitespace. -/
def isJsonWs (c : Char) : Bool :=
  c = ' ' ∨ c = '\t' ∨ c = '\n' ∨ c = '\r'

/-- A hexadecimal digit's value. -/
def hexVal (c : Char) : Option Nat :=
  if '0' ≤ c ∧ c ≤ '9' then some (c.toNat - '0'.toNat)
  else if 'a' ≤ c ∧ c ≤ 'f' then some (c.toNat - 'a'.toNat + 10)
  else if 'A' ≤ c ∧ c ≤ 'F' then some (c.toNat - 'A'.toNat + 10)
  else none

/-- Parse the body of a JSON string literal after the opening quote;
returns the decoded characters and the input after the closing quote. -/
def parseJsonStr : Nat → List Char → Option (List Char × List Char)
  | 0, _ => none
  | _ + 1, [] => none
  | fuel + 1, c :: rest =>
    if c = '"' then some ([], rest)
    else if c = '\\' then
      match rest with
      | [] => none
      | e :: rest' =>
        let decoded : Option (Char × List Char) :=
          if e = '"' then some ('"', rest')
          else if e = '\\' then some ('\\', rest')
          else if e = '/' then some ('/', rest')
          else if e = 'b' then some ('\x08', rest')
          else if e = 'f' then some ('\x0c', rest')
          else if e = 'n' then some ('\n', rest')
          else if e = 'r' then some ('\r', rest')
          else if e = 't' then some ('\t', rest')
          else if e = 'u' then
            match rest' with
            | h1 :: h2 :: h3 :: h4 :: rest'' =>
              match hexVal h1, hexVal h2, hexVal h3, hexVal h4 with
              | some a, some b, some c', some d =>
                some (Char.ofNat (((a * 16 + b) * 16 + c') * 16 + d), rest'')
              | _, _, _, _ => none
            | _ => none
          else none
        match decoded with
        | some (ch, rest'') =>
          match parseJsonStr fuel rest'' with
          | some (s, rem) => some (ch :: s, rem)
          | none => none
        | none => none
    else if c.toNat < 0x20 then none
    else
      match parseJsonStr fuel rest with
      | some (s, rem) => some (c :: s, rem)
      | none => none

/-- Parse the digits and punctuation of a JSON number literal starting at
the given input (which is known to start a number); returns the consumed
characters.  The grammar accepted is
`-? (0 | [1-9][0-9]*) (. [0-9]+)? ([eE] [+-]? [0-9]+)?`. -/
def parseJsonNum (l : List Char) : Option (List Char × List Char) :=
  let readDigits : List Char → List Char × List Char := fun cs =>
    (cs.takeWhile (fun c => '0' ≤ c ∧ c ≤ '9'),
     cs.dropWhile (fun c => '0' ≤ c ∧ c ≤ '9'))
  let (sign, afterSign) :=
    match l with
    | '-' :: rest => (['-'], rest)
    | _ => (([] : List Char), l)
  match readDigits afterSign with
  | ([], _) => none
  | (intDigits, afterInt) =>
    if intDigits.length > 1 ∧ intDigits.headD '0' = '0' then none
    else
      let (fracPart, afterFrac) :=
        match afterInt with
        | '.' :: rest =>
          match readDigits rest with
          | ([], _) => (none, afterInt)
          | (ds, rem) => (some ('.' :: ds), rem)
        | _ => (none, afterInt)
      match fracPart, afterFrac with
      | none, '.' :: _ => none
      | _, _ =>
        let (expPart, afterExp) :=
          match afterFrac with
          | e :: rest =>
            if e = 'e' ∨ e = 'E' then
              let (es, rest') :=
                match rest with
                | s :: rest'' => if s = '+' ∨ s = '-' then ([e, s], rest'')
                                 else ([e], rest)
                | [] => ([e], rest)
              match readDigits rest' with
              | ([], _) => (none, afterFrac)
              | (ds, rem) => (some (es ++ ds), rem)
            else (none, afterFrac)
          | [] => (none, afterFrac)
        match expPart, afterExp with
        | none, e :: _ =>
          if e = 'e' ∨ e = 'E' then none
          else some (sign ++ intDigits ++ (fracPart.getD []), afterExp)
        | _, _ =>
          some (sign ++ intDigits ++ (fracPart.getD []) ++ (expPart.getD []),
                afterExp)

/-- Drop leading JSON whitespace. -/
def skipJsonWs (l : List Char) : List Char := l.dropWhile isJsonWs

mutual

/-- Parse one JSON value at the head of the input.  The fuel argument only
bounds the recursion; `2 * length + 4` fuel (as supplied by `JSONparse`)
is ample for every input, since every recursive call follows the
consumption of at least one input character. -/
def parseJsonVal : Nat → List Char → Option (Json × List Char)
  | 0, _ => none
  | fuel + 1, l =>
    match skipJsonWs l with
    | [] => none
    | c :: rest =>
      if c = '"' then
        match parseJsonStr (rest.length + 1) rest with
        | some (s, rem) => some (Json.str (String.mk s), rem)
        | none => none
      else if c = '[' then
        match skipJsonWs rest with
        | ']' :: rem => some (Json.arr [], rem)
        | _ =>
          match parseJsonElems fuel rest with
          | some (es, rem) => some (Json.arr es, rem)
          | none => none
      else if c = '\x7b' then
        match skipJsonWs rest with
        | '\x7d' :: rem => some (Json.obj [], rem)
        | _ =>
          match parseJsonMembers fuel rest with
          | some (fs, rem) => some (Json.obj fs, rem)
          | none => none
      else if c = 't' then
        match rest with
        | 'r' :: 'u' :: 'e' :: rem => some (Json.bool true, rem)
        | _ => none
      else if c = 'f' then
        match rest with
        | 'a' :: 'l' :: 's' :: 'e' :: rem => some (Json.bool false, rem)
        | _ => none
      else if c = 'n' then
        match rest with
        | 'u' :: 'l' :: 'l' :: rem => some (Json.null, rem)
        | _ => none
      else
        match parseJsonNum (c :: rest) with
        | some (ds, rem) => some (Json.num (String.mk ds), rem)
        | none => none

/-- Parse the comma-separated elements of a nonempty array, including the
closing bracket. -/
def parseJsonElems : Nat → List Char → Option (List Json × List Char)
  | 0, _ => none
  | fuel + 1, l =>
    match parseJsonVal fuel l with
    | none => none
    | some (v, rem) =>
      match skipJsonWs rem with
      | ',' :: rem' =>
        match parseJsonElems fuel rem' with
        | some (vs, rem'') => some (v :: vs, rem'')
        | none => none
      | ']' :: rem' => some ([v], rem')
      | _ => none

/-- Parse the comma-separated members of a nonempty object, including the
closing brace. -/
def parseJsonMembers : Nat → List Char →
    Option (List (String × Json) × List Char)
  | 0, _ => none
  | fuel + 1, l =>
    match skipJsonWs l with
    | '"' :: rest =>
      match parseJsonStr (rest.length + 1) rest with
      | none => none
      | some (k, rem) =>
        match skipJsonWs rem with
        | ':' :: rem' =>
          match parseJsonVal fuel rem' with
          | none => none
          | some (v, rem'') =>
            match skipJsonWs rem'' with
            | ',' :: rem3 =>
              match parseJsonMembers fuel rem3 with
              | some (fs, rem4) => some ((String.mk k, v) :: fs, rem4)
              | none => none
            | '\x7d' :: rem3 => some ([(String.mk k, v)], rem3)
            | _ => none
        | _ => none
    | _ => none

end

/-- `JSON.parse`: parse one value and require only whitespace to follow;
`none` models the `SyntaxError` exception. -/
def JSONparse (s : String) : Option Json :=
  match parseJsonVal (2 * s.data.length + 4) s.data with
  | some (v, rem) => if skipJsonWs rem = [] then some v else none
  | none => none

/-! ## `translateAndAlignText` (services/geminiService.ts, lines 29-68) -/

namespace GeminiService

/-- The message of the error thrown by the `catch` block (line 66). -/
def translateFailMsg : String :=
  "Failed to translate and align text. The model may have returned an invalid response."

/-- Interpretation of one response array element as a `TranslationPair`:
an object with string fields `arabic` and `english`.  The adapter itself
never runs this check — the `as TranslationPair[]` cast is a no-op — so
`decodePair` only serves to state which parsed values conform to the
declared response schema. -/
def decodePair : Json → Option TranslationPair
  | Json.obj fields =>
    match fields.lookup "arabic", fields.lookup "english" with
    | some (Json.str a), some (Json.str e) =>
      some { arabic := a, english := e }
    | _, _ => none
  | _ => none

/-- `translateAndAlignText`, as a function of the outcome of the external
`generateContent` call: either a service/network error or the response
text.  A service error or a `JSON.parse` exception lands in the `catch`
block, which logs and throws the single translation-failure error; a
successful parse is returned as is (the cast performs no validation). -/
def translateAndAlignText (response : Except String String) :
    Except String Json :=
  match response with
  | Except.error _ => Except.error translateFailMsg
  | Except.ok text =>
    match JSONparse text with
    | none => Except.error translateFailMsg
    | some j => Except.ok j

end GeminiService

/-! ## The presentation layer (App.tsx) -/

/-- The React state of `App`. -/
structure AppState where
  arabicText : String
  translationPairs : List TranslationPair
  isLoading : Bool
  error : Option String
  isExporting : Bool
deriving DecidableEq, Repr

namespace App

/-- The observable course of one `handleTranslate` call: whether the
adapter was invoked, the state at the `await` point (`none` when the
guard rejected the input), and the state after the handler finished. -/
structure TranslateRun where
  adapterCalled : Bool
  mid : Option AppState
  final : AppState
deriving DecidableEq, Repr

/-- `handleTranslate` (App.tsx), as a
function of the adapter outcome.  A rejected adapter promise carries the
thrown error's message (`err instanceof Error ? err.message : ...`; the
adapter only ever throws `Error` values, whose message is the string
carried here). -/
def handleTranslate (s : AppState)
    (adapter : Except String (List TranslationPair)) : TranslateRun :=
  if jsTrim s.arabicText = "" then
    { adapterCalled := false
      mid := none
      final := { s with error := some "Please enter some Arabic text to translate." } }
  else
    let mid : AppState :=
      { s with isLoading := true, error := none, translationPairs := [] }
    let final : AppState :=
      match adapter with
      | Except.ok result =>
        { mid with translationPairs := result, isLoading := false }
      | Except.error msg =>
        { mid with error := some msg, isLoading := false }
    { adapterCalled := true, mid := some mid, final := final }

/-- `handleExport` (App.tsx): guards against an empty result set, clears
the error, calls `exportToWord` (the services/pdfService.ts variant,
which `App.tsx` imports) and catches any synchronous exception; the
`finally` clause resets `isExporting`.  Returns the final state and, when
the exporter was invoked, its recorded actions. -/
def handleExport (s : AppState) (assembleErr packErr : Option String) :
    AppState × Option ExportAction :=
  if s.translationPairs.length = 0 then
    ({ s with error := some "There is nothing to export." }, none)
  else
    let act := PdfService.exportToWord s.translationPairs assembleErr packErr
    let s1 : AppState :=
      match act.thrown with
      | some msg => { s with error := some msg, isExporting := false }
      | none => { s with error := none, isExporting := false }
    (s1, some act)

end App

/-! ## Derived notions used by the statements below -/

/-- The character set the sanitized filename is claimed to stay within:
letters, digits, the space, and the hyphen. -/
def allowedFilenameChar (c : Char) : Bool :=
  ('a' ≤ c ∧ c ≤ 'z') ∨ ('A' ≤ c ∧ c ≤ 'Z') ∨ ('0' ≤ c ∧ c ≤ '9') ∨
  c = ' ' ∨ c = '-'

/-- The number of line breaks in a segment text (each `\n`, optionally
preceded by `\r`, is one line break). -/
def lineBreakCount (t : String) : Nat := t.data.count '\n'

/-! ## Lemmas about the filename pipeline -/

theorem mem_collapseWsAux {c : Char} :
    ∀ (b : Bool) (l : List Char), c ∈ collapseWsAux b l →
      c = ' ' ∨ (c ∈ l ∧ isJsWs c = false) := by
  intro b l
  induction l generalizing b with
  | nil => intro h; simp [collapseWsAux] at h
  | cons d rest ih =>
    intro h
    simp only [collapseWsAux] at h
    by_cases hw : isJsWs d
    · simp only [hw, if_true] at h
      by_cases hb : b
      · subst hb
        simp only [if_true] at h
        rcases ih true h with h' | ⟨hm, hnw⟩
        · exact Or.inl h'
        · exact Or.inr ⟨List.mem_cons_of_mem _ hm, hnw⟩
      · simp only [hb, if_false] at h
        rcases List.mem_cons.mp h with h' | h'
        · exact Or.inl h'
        · rcases ih true h' with h'' | ⟨hm, hnw⟩
          · exact Or.inl h''
          · exact Or.inr ⟨List.mem_cons_of_mem _ hm, hnw⟩
    · simp only [hw, if_false] at h
      rcases List.mem_cons.mp h with h' | h'
      · subst h'
        by_cases hsp : c = ' '
        · exact Or.inl hsp
        · exact Or.inr ⟨List.mem_cons_self _ _, by simpa using hw⟩
      · rcases ih false h' with h'' | ⟨hm, hnw⟩
        · exact Or.inl h''
        · exact Or.inr ⟨List.mem_cons_of_mem _ hm, hnw⟩

theorem mem_trimWsList {c : Char} {l : List Char} (h : c ∈ trimWsList l) :
    c ∈ l := by
  unfold trimWsList at h
  rw [List.mem_reverse] at h
  have h1 : c ∈ (l.dropWhile isJsWs).reverse :=
    (List.dropWhile_sublist isJsWs).mem h
  rw [List.mem_reverse] at h1
  exact (List.dropWhile_sublist isJsWs).mem h1

theorem trimWsList_eq_nil {l : List Char} (h : ∀ c ∈ l, isJsWs c) :
    trimWsList l = [] := by
  unfold trimWsList
  have h1 : l.dropWhile isJsWs = [] := List.dropWhile_eq_nil_iff.mpr h
  simp [h1]

theorem keepChar_cases {c : Char} (hk : keepChar c = true) :
    allowedFilenameChar c = true ∨ isJsWs c = true := by
  unfold keepChar at hk
  unfold allowedFilenameChar
  rw [decide_eq_true_eq] at hk
  rcases hk with h | h | h | h | h
  · exact Or.inl (by simp [h])
  · exact Or.inl (by simp [h])
  · exact Or.inl (by simp [h])
  · exact Or.inl (by simp [h])
  · exact Or.inr h

/-- C6.  The filename sanitization function returns only letters, digits,
spaces and hyphens, its result has length at most 50, and an input that is
empty, whitespace-only, or made entirely of characters outside the allowed
set yields the fixed fallback name "translation". -/
theorem c6_sanitizeFilename_spec (name : String) :
    (∀ c ∈ (sanitizeFilename name).data, allowedFilenameChar c = true) ∧
    (sanitizeFilename name).length ≤ 50 ∧
    ((name = "" ∨ (∀ c ∈ name.data, isJsWs c = true) ∨
        (∀ c ∈ name.data, allowedFilenameChar c = false)) →
      sanitizeFilename name = "translation") := by
  refine ⟨?_, ?_, ?_⟩
  · intro c hc
    simp only [sanitizeFilename] at hc
    split at hc
    · revert hc
      revert c
      decide
    · simp only [String.mk] at hc
      have hcol : c ∈ collapseWsAux false (trimWsList (name.data.filter keepChar)) :=
        (List.take_sublist 50 _).mem hc
      rcases mem_collapseWsAux false _ hcol with h | ⟨hm, hnw⟩
      · simp [allowedFilenameChar, h]
      · have hmem : c ∈ name.data.filter keepChar := mem_trimWsList hm
        have hk : keepChar c = true := (List.mem_filter.mp hmem).2
        rcases keepChar_cases hk with h | h
        · exact h
        · rw [h] at hnw; cases hnw
  · simp only [sanitizeFilename]
    split
    · decide
    · have : (String.mk ((collapseWsAux false
          (trimWsList (name.data.filter keepChar))).take 50)).length =
          ((collapseWsAux false
            (trimWsList (name.data.filter keepChar))).take 50).length := rfl
      rw [this]
      exact List.length_take_le _ _
  · intro h
    have hnil : trimWsList (name.data.filter keepChar) = [] := by
      rcases h with h | h | h
      · subst h; rfl
      · refine trimWsList_eq_nil ?_
        intro c hc
        exact h c (List.mem_filter.mp hc).1
      · refine trimWsList_eq_nil ?_
        intro c hc
        have hk := (List.mem_filter.mp hc).2
        rcases keepChar_cases hk with h' | h'
        · rw [h c (List.mem_filter.mp hc).1] at h'; cases h'
        · exact h'
    simp only [sanitizeFilename]
    rw [hnil]
    rfl

/-- Witness for C6: the all-special input "###" takes the fallback branch,
and the general bounds hold there. -/
theorem c6_sanitizeFilename_spec_witness :
    sanitizeFilename "###" = "translation" ∧
    (sanitizeFilename "###").length ≤ 50 ∧
    allowedFilenameChar 't' = true := by
  have h := c6_sanitizeFilename_spec "###"
  exact ⟨h.2.2 (Or.inr (Or.inr (by decide))), h.2.1, h.1 't' (by decide)⟩

/-! ## Character-level lemmas -/

theorem toNat_charOfNat (n : Nat) (h : n < 0xd800) : (Char.ofNat n).toNat = n := by
  have hv : n.isValidChar := Or.inl h
  simp [Char.ofNat, hv, Char.ofNatAux, Char.toNat, UInt32.toNat, BitVec.toNat_ofNatLt]

theorem ascii_decide (P : Char → Prop) [DecidablePred P]
    (h : ∀ n : Fin 128, P (Char.ofNat n.val)) {c : Char}
    (hc : c.toNat < 128) : P c := by
  have h' := h ⟨c.toNat, hc⟩
  rwa [Char.ofNat_toNat] at h'

theorem charToLowerJs_eq_space_iff (c : Char) :
    charToLowerJs c = ' ' ↔ c = ' ' := by
  unfold charToLowerJs
  split
  · rename_i h
    have h32 : ' '.toNat = 32 := rfl
    constructor
    · intro heq
      have h2 := congrArg Char.toNat heq
      rw [toNat_charOfNat (c.toNat + 32) (by omega)] at h2
      omega
    · intro heq
      subst heq
      exact absurd h (by decide)
  · exact Iff.rfl

theorem space_notMem_charToUpperJs {c : Char} (h : c ≠ ' ') :
    ' ' ∉ charToUpperJs c := by
  unfold charToUpperJs
  split
  · rename_i hr
    intro hm
    have heq := List.mem_singleton.mp hm
    have h2 := congrArg Char.toNat heq
    rw [toNat_charOfNat (c.toNat - 32) (by omega)] at h2
    have h32 : ' '.toNat = 32 := rfl
    omega
  · split
    · decide
    · intro hm
      exact h (List.mem_singleton.mp hm).symm

theorem charToLowerJs_ascii {c : Char} (hc : c.toNat < 128) :
    (charToLowerJs c).toNat < 128 := by
  unfold charToLowerJs
  split
  · rename_i h
    rw [toNat_charOfNat (c.toNat + 32) (by omega)]
    omega
  · exact hc

/-! ## List-level lemmas about splitting and joining -/

theorem mem_intersperse_of_mem {α : Type} {w : α} {ws : List α} (x : α)
    (h : w ∈ ws) : w ∈ ws.intersperse x := by
  induction ws with
  | nil => cases h
  | cons a rest ih =>
    cases rest with
    | nil => simpa using h
    | cons b bs =>
      rw [List.intersperse_cons_cons]
      rcases List.mem_cons.mp h with h' | h'
      · subst h'
        exact List.mem_cons_self _ _
      · exact List.mem_cons_of_mem _ (List.mem_cons_of_mem _ (ih h'))

theorem mem_intercalate_of_mem {α : Type} {c : α} {w : List α} {ws : List (List α)}
    (x : List α) (hw : w ∈ ws) (hc : c ∈ w) : c ∈ x.intercalate ws := by
  rw [List.intercalate]
  exact List.mem_flatten.mpr ⟨w, mem_intersperse_of_mem x hw, hc⟩

theorem map_intersperse {α β : Type} (f : α → β) (x : α) (l : List α) :
    (l.intersperse x).map f = (l.map f).intersperse (f x) := by
  induction l with
  | nil => rfl
  | cons a rest ih =>
    cases rest with
    | nil => rfl
    | cons b bs =>
      simp only [List.intersperse_cons_cons, List.map_cons, ih]

theorem map_intercalate {α β : Type} (f : α → β) (x : List α)
    (ws : List (List α)) :
    (x.intercalate ws).map f = (x.map f).intercalate (ws.map (List.map f)) := by
  rw [List.intercalate, List.intercalate, List.map_flatten, map_intersperse]

theorem splitOnP_no_sep {α : Type} (p : α → Bool) (l : List α) :
    ∀ w ∈ l.splitOnP p, ∀ c ∈ w, p c = false := by
  induction l with
  | nil =>
    intro w hw
    rw [List.splitOnP_nil] at hw
    intro c hc
    rw [List.mem_singleton.mp hw] at hc
    cases hc
  | cons a rest ih =>
    intro w hw
    rw [List.splitOnP_cons] at hw
    by_cases hp : p a = true
    · rw [if_pos hp] at hw
      rcases List.mem_cons.mp hw with h' | h'
      · intro c hc; rw [h'] at hc; cases hc
      · exact ih w h'
    · rw [if_neg hp] at hw
      cases hsplit : rest.splitOnP p with
      | nil => exact absurd hsplit (List.splitOnP_ne_nil p rest)
      | cons w0 ws0 =>
        rw [hsplit, List.modifyHead_cons] at hw
        rcases List.mem_cons.mp hw with h' | h'
        · subst h'
          intro c hc
          rcases List.mem_cons.mp hc with h'' | h''
          · rw [h'']; exact Bool.not_eq_true _ ▸ hp
          · exact ih w0 (hsplit ▸ List.mem_cons_self _ _) c h''
        · exact ih w (hsplit ▸ List.mem_cons_of_mem _ h')

theorem splitOnP_map {α : Type} (f : α → α) (p q : α → Bool)
    (hpq : ∀ c, p (f c) = q c) (l : List α) :
    (l.map f).splitOnP p = (l.splitOnP q).map (List.map f) := by
  induction l with
  | nil => rfl
  | cons c rest ih =>
    rw [List.map_cons, List.splitOnP_cons, List.splitOnP_cons, hpq c]
    by_cases hq : q c = true
    · rw [if_pos hq, if_pos hq, ih, List.map_cons, List.map_nil]
    · rw [if_neg hq, if_neg hq, ih]
      cases hsplit : rest.splitOnP q with
      | nil => exact absurd hsplit (List.splitOnP_ne_nil q rest)
      | cons w0 ws0 =>
        rw [List.map_cons, List.modifyHead_cons, List.modifyHead_cons,
          List.map_cons, List.map_cons]

/-! ## Structure of `toTitleCase` -/

theorem toTitleCase_data (s : String) :
    (toTitleCase s).data =
      [' '].intercalate
        (((s.data.map charToLowerJs).splitOn ' ').map capWord) := by
  unfold toTitleCase
  split
  · rename_i h
    subst h
    rfl
  · rfl

theorem splitOn_space_map_lower (l : List Char) :
    (l.map charToLowerJs).splitOn ' ' =
      (l.splitOn ' ').map (List.map charToLowerJs) := by
  simp only [List.splitOn]
  apply splitOnP_map
  intro c
  by_cases h : c = ' '
  · subst h; rfl
  · have h2 : charToLowerJs c ≠ ' ' :=
      fun hh => h ((charToLowerJs_eq_space_iff c).mp hh)
    simp [h, h2]

theorem splitOn_space_no_sep (l : List Char) :
    ∀ w ∈ l.splitOn ' ', ' ' ∉ w := by
  simp only [List.splitOn]
  intro w hw hc
  have h := splitOnP_no_sep (fun c => c == ' ') l w hw ' ' hc
  simp at h

theorem splitOn_space_ne_nil (l : List Char) : l.splitOn ' ' ≠ [] := by
  simp only [List.splitOn]
  exact List.splitOnP_ne_nil _ l

theorem space_notMem_capWord {w : List Char} (h : ' ' ∉ w) :
    ' ' ∉ capWord w := by
  cases w with
  | nil => simp [capWord]
  | cons c rest =>
    simp only [capWord]
    intro hm
    rcases List.mem_append.mp hm with h' | h'
    · exact space_notMem_charToUpperJs
        (fun hc => h (hc ▸ List.mem_cons_self _ _)) h'
    · exact h (List.mem_cons_of_mem _ h')

/-- C10.  `toTitleCase` maps the empty string to the empty string; it
preserves the space structure of its input — splitting the result on the
ASCII space gives exactly one word per word of the input, in order, so
consecutive spaces survive — and each result word is the lowercased input
word with only its first character case-raised; in particular every
character after a non-space whitespace character (newline, tab, ...)
inside a word is lowercased, never capitalized. -/
theorem c10_toTitleCase_word_structure (s : String) :
    toTitleCase "" = "" ∧
    (toTitleCase s).data.splitOn ' ' =
      (s.data.splitOn ' ').map (fun w => capWord (w.map charToLowerJs)) ∧
    ((toTitleCase s).data.splitOn ' ').length =
      (s.data.splitOn ' ').length ∧
    (∀ w ∈ s.data.splitOn ' ', ∀ c rest, w = c :: rest →
      capWord (w.map charToLowerJs) =
        charToUpperJs (charToLowerJs c) ++ rest.map charToLowerJs) := by
  have hsplit : (toTitleCase s).data.splitOn ' ' =
      (s.data.splitOn ' ').map (fun w => capWord (w.map charToLowerJs)) := by
    rw [toTitleCase_data]
    rw [splitOn_space_map_lower]
    rw [List.splitOn_intercalate]
    · rw [List.map_map]
      rfl
    · intro l hl
      rcases List.mem_map.mp hl with ⟨w, hw, hcap⟩
      rcases List.mem_map.mp hw with ⟨w0, hw0, hmap⟩
      subst hcap
      subst hmap
      apply space_notMem_capWord
      intro hsp
      rcases List.mem_map.mp hsp with ⟨c0, hc0, hlow⟩
      have : c0 = ' ' := (charToLowerJs_eq_space_iff c0).mp hlow
      subst this
      exact splitOn_space_no_sep s.data w0 hw0 hc0
    · intro hnil
      rcases List.map_eq_nil_iff.mp (List.map_eq_nil_iff.mp hnil) with h
      exact splitOn_space_ne_nil s.data h
  refine ⟨rfl, hsplit, ?_, ?_⟩
  · rw [hsplit, List.length_map]
  · intro w _ c rest hw
    subst hw
    rfl

/-- Witness for C10 at a concrete input containing an internal newline and
a double space: the word containing the newline keeps everything after
its first character lowercased. -/
theorem c10_toTitleCase_word_structure_witness :
    (toTitleCase "hI\nThere  yOU").data.splitOn ' ' =
      (("hI\nThere  yOU").data.splitOn ' ').map
        (fun w => capWord (w.map charToLowerJs)) ∧
    capWord ((['h', 'I', '\n', 'T', 'h', 'e', 'r', 'e']).map charToLowerJs) =
      charToUpperJs (charToLowerJs 'h') ++
        (['I', '\n', 'T', 'h', 'e', 'r', 'e']).map charToLowerJs := by
  have h := c10_toTitleCase_word_structure "hI\nThere  yOU"
  exact ⟨h.2.1, h.2.2.2 ['h', 'I', '\n', 'T', 'h', 'e', 'r', 'e'] (by decide)
    'h' ['I', '\n', 'T', 'h', 'e', 'r', 'e'] rfl⟩

/-! ## Idempotence of `toTitleCase` on the one-to-one case fragment -/

theorem map_id_of_mem {α : Type} {f : α → α} :
    ∀ {l : List α}, (∀ c ∈ l, f c = c) → l.map f = l
  | [], _ => rfl
  | c :: rest, h => by
    rw [List.map_cons, h c (List.mem_cons_self _ _),
      map_id_of_mem (fun c' hc' => h c' (List.mem_cons_of_mem _ hc'))]

/-- A character whose lowercasing is the identity and whose uppercasing
lowers back to itself; applying `capWord` to a word of such characters
and lowercasing recovers the word. -/
def goodChar (c : Char) : Prop :=
  charToLowerJs c = c ∧ (charToUpperJs c).map charToLowerJs = [c]

instance : DecidablePred goodChar := fun c => by
  unfold goodChar
  infer_instance

theorem goodChar_of_ascii_lower {c : Char} (hc : c.toNat < 128) :
    goodChar (charToLowerJs c) := by
  refine ascii_decide (fun c => goodChar (charToLowerJs c)) ?_ hc
  decide

theorem map_lower_capWord {w : List Char} (h : ∀ c ∈ w, goodChar c) :
    (capWord w).map charToLowerJs = w := by
  cases w with
  | nil => rfl
  | cons c rest =>
    simp only [capWord, List.map_append]
    rw [(h c (List.mem_cons_self _ _)).2,
      map_id_of_mem (fun c' hc' => (h c' (List.mem_cons_of_mem _ hc')).1)]
    rfl

theorem lower_toTitleCase (s : String) (hascii : ∀ c ∈ s.data, c.toNat < 128) :
    (toTitleCase s).data.map charToLowerJs = s.data.map charToLowerJs := by
  rw [toTitleCase_data, map_intercalate]
  have hmapmap :
      (((s.data.map charToLowerJs).splitOn ' ').map capWord).map
        (List.map charToLowerJs) =
      (s.data.map charToLowerJs).splitOn ' ' := by
    rw [List.map_map]
    have : ∀ w ∈ (s.data.map charToLowerJs).splitOn ' ',
        (List.map charToLowerJs ∘ capWord) w = w := by
      intro w hw
      simp only [Function.comp]
      refine map_lower_capWord ?_
      intro c hc
      have hcmem : c ∈ s.data.map charToLowerJs := by
        have hrec := List.intercalate_splitOn (s.data.map charToLowerJs) ' '
        rw [← hrec]
        exact mem_intercalate_of_mem [' '] hw hc
      rcases List.mem_map.mp hcmem with ⟨c0, hc0, hlow⟩
      subst hlow
      exact goodChar_of_ascii_lower (hascii c0 hc0)
    calc ((s.data.map charToLowerJs).splitOn ' ').map
          (List.map charToLowerJs ∘ capWord)
        = ((s.data.map charToLowerJs).splitOn ' ').map id := by
          exact List.map_congr_left this
      _ = (s.data.map charToLowerJs).splitOn ' ' := List.map_id _
  rw [hmapmap]
  have hsp : [' '].map charToLowerJs = [' '] := rfl
  rw [hsp]
  exact List.intercalate_splitOn (s.data.map charToLowerJs) ' '

/-- C8 counterexample.  `toTitleCase` is not idempotent on every string:
JavaScript uppercases the German ß to the two-letter "SS"
(`'ß'.toUpperCase() === "SS"`), so `toTitleCase "ß" = "SS"` while a second
application lowercases and recapitalizes it to "Ss". -/
theorem c8_toTitleCase_not_idempotent_cex :
    toTitleCase (toTitleCase "ß") ≠ toTitleCase "ß" := by decide

theorem toTitleCase_eq_pipeline (s : String) :
    toTitleCase s =
      String.mk ([' '].intercalate
        (((s.data.map charToLowerJs).splitOn ' ').map capWord)) := by
  unfold toTitleCase
  split
  · rename_i h
    subst h
    rfl
  · rfl

/-- C8 amended.  `toTitleCase` is idempotent on every string whose
characters all have single-character, round-tripping case mappings — in
particular on every ASCII string. -/
theorem c8_toTitleCase_idempotent_ascii (s : String)
    (h : ∀ c ∈ s.data, c.toNat < 128) :
    toTitleCase (toTitleCase s) = toTitleCase s := by
  rw [toTitleCase_eq_pipeline (toTitleCase s), lower_toTitleCase s h]
  exact (toTitleCase_eq_pipeline s).symm

/-- Witness for the amended C8 at a concrete mixed-case ASCII string. -/
theorem c8_toTitleCase_idempotent_ascii_witness :
    toTitleCase (toTitleCase "hELLo  wOrld") = toTitleCase "hELLo  wOrld" :=
  c8_toTitleCase_idempotent_ascii "hELLo  wOrld" (by decide)

/-! ## Claims about the presentation layer and the exporter -/

/-- C5.  The translate action: an empty trimmed input makes no adapter
call and reports the input error; a non-empty trimmed input clears the
prior results and the prior error before awaiting the adapter; a rejected
adapter stores the thrown error's message and leaves the input text
unchanged. -/
theorem c5_handleTranslate_spec (s : AppState)
    (adapter : Except String (List TranslationPair)) :
    (jsTrim s.arabicText = "" →
      (App.handleTranslate s adapter).adapterCalled = false ∧
      (App.handleTranslate s adapter).final.error =
        some "Please enter some Arabic text to translate.") ∧
    (jsTrim s.arabicText ≠ "" →
      (App.handleTranslate s adapter).adapterCalled = true ∧
      ∃ m, (App.handleTranslate s adapter).mid = some m ∧
        m.translationPairs = [] ∧ m.error = none ∧
        m.arabicText = s.arabicText) ∧
    (∀ msg, adapter = Except.error msg → jsTrim s.arabicText ≠ "" →
      (App.handleTranslate s adapter).final.error = some msg ∧
      (App.handleTranslate s adapter).final.arabicText = s.arabicText) := by
  by_cases h : jsTrim s.arabicText = ""
  · refine ⟨fun _ => ?_, fun hne => absurd h hne, fun msg _ hne => absurd h hne⟩
    simp [App.handleTranslate, h]
  · refine ⟨fun he => absurd he h, fun _ => ?_, fun msg hmsg _ => ?_⟩
    · refine ⟨by simp [App.handleTranslate, h], ?_⟩
      refine ⟨{ s with isLoading := true, error := none, translationPairs := [] },
        ?_, rfl, rfl, rfl⟩
      simp [App.handleTranslate, h]
    · subst hmsg
      simp [App.handleTranslate, h]

/-- Witness for C5: the empty-input guard at a whitespace-only input, and
the clear-then-fail path at a non-empty input with a rejecting adapter. -/
theorem c5_handleTranslate_spec_witness :
    ((App.handleTranslate
        { arabicText := " ", translationPairs := [], isLoading := false,
          error := none, isExporting := false }
        (Except.ok [])).adapterCalled = false ∧
      (App.handleTranslate
        { arabicText := " ", translationPairs := [], isLoading := false,
          error := none, isExporting := false }
        (Except.ok [])).final.error =
          some "Please enter some Arabic text to translate.") ∧
    ((App.handleTranslate
        { arabicText := "hi", translationPairs := [{ arabic := "a", english := "b" }],
          isLoading := false, error := some "old", isExporting := false }
        (Except.error "boom")).adapterCalled = true) ∧
    ((App.handleTranslate
        { arabicText := "hi", translationPairs := [{ arabic := "a", english := "b" }],
          isLoading := false, error := some "old", isExporting := false }
        (Except.error "boom")).final.error = some "boom" ∧
      (App.handleTranslate
        { arabicText := "hi", translationPairs := [{ arabic := "a", english := "b" }],
          isLoading := false, error := some "old", isExporting := false }
        (Except.error "boom")).final.arabicText = "hi") := by
  have h1 := c5_handleTranslate_spec
    { arabicText := " ", translationPairs := [], isLoading := false,
      error := none, isExporting := false } (Except.ok [])
  have h2 := c5_handleTranslate_spec
    { arabicText := "hi", translationPairs := [{ arabic := "a", english := "b" }],
      isLoading := false, error := some "old", isExporting := false }
    (Except.error "boom")
  exact ⟨h1.1 (by decide), (h2.2.1 (by decide)).1,
    h2.2.2 "boom" rfl (by decide)⟩

/-- C7.  With exactly one pair, `exportToWord` assembles a document whose
single section holds precisely the two title paragraphs and the spacer —
in particular no body table — whatever the packing outcome; with an empty
sequence it only logs the diagnostic: no document is assembled, nothing is
downloaded, and nothing is thrown to the caller. -/
theorem c7_exportToWord_single_and_empty :
    (∀ (p : TranslationPair) (packErr : Option String),
      (PdfService.exportToWord [p] none packErr).doc =
        some (PdfService.assembleDoc [p] p) ∧
      (PdfService.assembleDoc [p] p).sections =
        [{ pageWidth := 15840, pageHeight := 12240, landscape := true,
           margin := 720,
           children := [DocChild.para (PdfService.arabicTitle p),
                        DocChild.para (PdfService.englishTitle p),
                        DocChild.para PdfService.spacer] }] ∧
      (∀ sec ∈ (PdfService.assembleDoc [p] p).sections,
        ∀ t, DocChild.table t ∉ sec.children)) ∧
    (∀ (assembleErr packErr : Option String),
      PdfService.exportToWord [] assembleErr packErr =
        { consoleLogs := ["No data available to export."], doc := none,
          downloads := [], thrown := none }) := by
  constructor
  · intro p packErr
    refine ⟨?_, ?_, ?_⟩
    · cases packErr <;> rfl
    · rfl
    · intro sec hsec t ht
      rw [show (PdfService.assembleDoc [p] p).sections =
          [{ pageWidth := 15840, pageHeight := 12240, landscape := true,
             margin := 720,
             children := [DocChild.para (PdfService.arabicTitle p),
                          DocChild.para (PdfService.englishTitle p),
                          DocChild.para PdfService.spacer] }] from rfl] at hsec
      have hsec' := List.mem_singleton.mp hsec
      rw [hsec'] at ht
      simp at ht
  · intro assembleErr packErr
    rfl

/-- Witness for C7 at a concrete single pair and both packing outcomes. -/
theorem c7_exportToWord_single_and_empty_witness :
    (PdfService.exportToWord [{ arabic := "أ", english := "a title" }] none
        none).doc =
      some (PdfService.assembleDoc [{ arabic := "أ", english := "a title" }]
        { arabic := "أ", english := "a title" }) ∧
    DocChild.table { rows := [], width := 14400, columnWidths := [7200, 7200] } ∉
      ((PdfService.assembleDoc [{ arabic := "أ", english := "a title" }]
        { arabic := "أ", english := "a title" }).sections.headD
          { pageWidth := 0, pageHeight := 0, landscape := false, margin := 0,
            children := [] }).children ∧
    PdfService.exportToWord [] none (some "boom") =
      { consoleLogs := ["No data available to export."], doc := none,
        downloads := [], thrown := none } := by
  have h := c7_exportToWord_single_and_empty
  refine ⟨(h.1 { arabic := "أ", english := "a title" } none).1, ?_,
    h.2 none (some "boom")⟩
  intro hmem
  exact (h.1 { arabic := "أ", english := "a title" } none).2.2
    ((PdfService.assembleDoc [{ arabic := "أ", english := "a title" }]
      { arabic := "أ", english := "a title" }).sections.headD
        { pageWidth := 0, pageHeight := 0, landscape := false, margin := 0,
          children := [] })
    (by decide) _ hmem

/-- C4 counterexample.  At a concrete state with one pair and a failing
packing stage, the error is caught by the promise's `.catch` and logged to
the console, no download is initiated and nothing is thrown — but the
user-visible error state stays `none`: the blob-emission error is never
reported to the user (the claim asserts every assembly or emission error
is reported visibly). -/
theorem c4_pack_error_not_user_visible_cex :
    (App.handleExport
        { arabicText := "x", translationPairs := [{ arabic := "أ", english := "a" }],
          isLoading := false, error := some "prior", isExporting := true }
        none (some "boom")).1.error = none ∧
    ((App.handleExport
        { arabicText := "x", translationPairs := [{ arabic := "أ", english := "a" }],
          isLoading := false, error := some "prior", isExporting := true }
        none (some "boom")).2.map ExportAction.consoleLogs) =
      some ["Error generating Word document: boom"] ∧
    ((App.handleExport
        { arabicText := "x", translationPairs := [{ arabic := "أ", english := "a" }],
          isLoading := false, error := some "prior", isExporting := true }
        none (some "boom")).2.map ExportAction.downloads) = some [] ∧
    ((App.handleExport
        { arabicText := "x", translationPairs := [{ arabic := "أ", english := "a" }],
          isLoading := false, error := some "prior", isExporting := true }
        none (some "boom")).2.map ExportAction.thrown) = some none := by
  exact ⟨rfl, rfl, rfl, rfl⟩

/-- C4 amended.  For a non-empty sequence: a synchronous assembly error is
thrown out of `exportToWord`, caught by `handleExport`, and stored as the
user-visible error with no download; an asynchronous packing or emission
error is caught inside `exportToWord` by the promise's `.catch`, logged to
the console only — the user-visible error state stays cleared — and no
download is initiated.  In both cases nothing propagates past
`handleExport`. -/
theorem c4_export_failure_amended (s : AppState) (aErr pErr : Option String)
    (hne : s.translationPairs.length ≠ 0) :
    (∀ e, aErr = some e →
      ((App.handleExport s aErr pErr).2.map ExportAction.thrown) =
        some (some e) ∧
      (App.handleExport s aErr pErr).1.error = some e ∧
      ((App.handleExport s aErr pErr).2.map ExportAction.downloads) =
        some []) ∧
    (∀ e, aErr = none → pErr = some e →
      ((App.handleExport s aErr pErr).2.map ExportAction.thrown) =
        some none ∧
      ((App.handleExport s aErr pErr).2.map ExportAction.consoleLogs) =
        some ["Error generating Word document: " ++ e] ∧
      ((App.handleExport s aErr pErr).2.map ExportAction.downloads) =
        some [] ∧
      (App.handleExport s aErr pErr).1.error = none) := by
  constructor
  · intro e he
    subst he
    have hdata : s.translationPairs.length = 0 ↔ False := by simp [hne]
    simp [App.handleExport, PdfService.exportToWord, hdata, hne]
  · intro e ha hp
    subst ha
    subst hp
    have hdata : s.translationPairs.length = 0 ↔ False := by simp [hne]
    simp [App.handleExport, PdfService.exportToWord, hdata, hne]

/-- Witness for the amended C4: both failure stages at a concrete state. -/
theorem c4_export_failure_amended_witness :
    ((App.handleExport
        { arabicText := "x", translationPairs := [{ arabic := "أ", english := "a" }],
          isLoading := false, error := none, isExporting := true }
        (some "assembly failed") none).1.error = some "assembly failed") ∧
    ((App.handleExport
        { arabicText := "x", translationPairs := [{ arabic := "أ", english := "a" }],
          isLoading := false, error := none, isExporting := true }
        none (some "pack failed")).1.error = none) := by
  have h1 := c4_export_failure_amended
    { arabicText := "x", translationPairs := [{ arabic := "أ", english := "a" }],
      isLoading := false, error := none, isExporting := true }
    (some "assembly failed") none (by decide)
  have h2 := c4_export_failure_amended
    { arabicText := "x", translationPairs := [{ arabic := "أ", english := "a" }],
      isLoading := false, error := none, isExporting := true }
    none (some "pack failed") (by decide)
  exact ⟨(h1.1 "assembly failed" rfl).2.1, (h2.2 "pack failed" rfl rfl).2.2.2⟩

/-- C3 counterexample.  The response text "[[]]" parses as JSON but
violates the declared schema — its only element is an array, not an
object with string fields `arabic` and `english` — yet
`translateAndAlignText` resolves with the unvalidated parsed value
instead of rejecting: the `as TranslationPair[]` cast checks nothing. -/
theorem c3_schema_violation_resolves_cex :
    GeminiService.translateAndAlignText (Except.ok "[[]]") =
      Except.ok (Json.arr [Json.arr []]) ∧
    GeminiService.decodePair (Json.arr []) = none ∧
    GeminiService.translateAndAlignText (Except.ok "[[]]") ≠
      Except.error GeminiService.translateFailMsg := by
  refine ⟨rfl, rfl, ?_⟩
  intro h
  rw [show GeminiService.translateAndAlignText (Except.ok "[[]]") =
    Except.ok (Json.arr [Json.arr []]) from rfl] at h
  cases h

/-- C3 amended.  `translateAndAlignText` rejects with the single
translation-failure error exactly when the service call fails or the
response text fails to parse as JSON; a response text that parses as JSON
resolves with the full parsed value, with no schema validation (schema
enforcement is delegated to the request's response-schema constraint). -/
theorem c3_translate_failure_amended :
    (∀ txt, JSONparse txt = none →
      GeminiService.translateAndAlignText (Except.ok txt) =
        Except.error GeminiService.translateFailMsg) ∧
    (∀ e, GeminiService.translateAndAlignText (Except.error e) =
      Except.error GeminiService.translateFailMsg) ∧
    (∀ txt j, JSONparse txt = some j →
      GeminiService.translateAndAlignText (Except.ok txt) = Except.ok j) := by
  refine ⟨?_, ?_, ?_⟩
  · intro txt hp
    simp [GeminiService.translateAndAlignText, hp]
  · intro e
    rfl
  · intro txt j hp
    simp [GeminiService.translateAndAlignText, hp]

/-- Witness for the amended C3: the unterminated text "[" fails to parse
and the call rejects with the translation-failure error. -/
theorem c3_translate_failure_amended_witness :
    GeminiService.translateAndAlignText (Except.ok "[") =
      Except.error GeminiService.translateFailMsg :=
  c3_translate_failure_amended.1 "[" rfl

/-! ## C2: a conforming parsed array resolves in order -/

theorem mapM_option_spec {α β : Type} (f : α → Option β) :
    ∀ (l : List α), (∀ o ∈ l, (f o).isSome) →
      ∃ ps : List β, l.mapM f = some ps ∧ ps.length = l.length ∧
        ∀ i (hi : i < l.length) (hi' : i < ps.length),
          f (l.get ⟨i, hi⟩) = some (ps.get ⟨i, hi'⟩)
  | [], _ => ⟨[], rfl, rfl, fun i hi => absurd hi (by simp)⟩
  | a :: l, h => by
    have ha := h a (List.mem_cons_self _ _)
    rcases Option.isSome_iff_exists.mp ha with ⟨b, hb⟩
    rcases mapM_option_spec f l
      (fun o ho => h o (List.mem_cons_of_mem _ ho)) with ⟨ps, hps, hlen, hidx⟩
    refine ⟨b :: ps, ?_, by simp [hlen], ?_⟩
    · rw [List.mapM_cons, hb, hps]
      rfl
    · intro i hi hi'
      cases i with
      | zero => simpa using hb
      | succ n =>
        have hn : n < l.length := by simpa using hi
        have hn' : n < ps.length := by simpa using hi'
        simpa using hidx n hn hn'

/-- C2.  For a non-empty response text that is a valid JSON array of
objects each carrying string fields `arabic` and `english`,
`translateAndAlignText` resolves with exactly that array, and the segment
pairs it denotes decode elementwise, in order, with one pair per object. -/
theorem c2_translate_preserves_order (txt : String) (objs : List Json)
    (hne : txt ≠ "")
    (hparse : JSONparse txt = some (Json.arr objs))
    (hobjs : ∀ o ∈ objs, (GeminiService.decodePair o).isSome) :
    GeminiService.translateAndAlignText (Except.ok txt) =
      Except.ok (Json.arr objs) ∧
    ∃ ps : List TranslationPair,
      objs.mapM GeminiService.decodePair = some ps ∧
      ps.length = objs.length ∧
      ∀ i (hi : i < objs.length) (hi' : i < ps.length),
        GeminiService.decodePair (objs.get ⟨i, hi⟩) = some (ps.get ⟨i, hi'⟩) := by
  constructor
  · simp [GeminiService.translateAndAlignText, hparse]
  · exact mapM_option_spec GeminiService.decodePair objs hobjs

/-- Witness for C2 at a concrete two-object response text. -/
theorem c2_translate_preserves_order_witness :
    GeminiService.translateAndAlignText (Except.ok
        "[\x7b\"arabic\":\"أ\",\"english\":\"a\"\x7d,\x7b\"arabic\":\"ب\",\"english\":\"b\"\x7d]") =
      Except.ok (Json.arr
        [Json.obj [("arabic", Json.str "أ"), ("english", Json.str "a")],
         Json.obj [("arabic", Json.str "ب"), ("english", Json.str "b")]]) ∧
    ([Json.obj [("arabic", Json.str "أ"), ("english", Json.str "a")],
      Json.obj [("arabic", Json.str "ب"), ("english", Json.str "b")]]).mapM
        GeminiService.decodePair =
      some [{ arabic := "أ", english := "a" }, { arabic := "ب", english := "b" }] := by
  have h := c2_translate_preserves_order
    "[\x7b\"arabic\":\"أ\",\"english\":\"a\"\x7d,\x7b\"arabic\":\"ب\",\"english\":\"b\"\x7d]"
    [Json.obj [("arabic", Json.str "أ"), ("english", Json.str "a")],
     Json.obj [("arabic", Json.str "ب"), ("english", Json.str "b")]]
    (by decide) (by rfl) (by decide)
  exact ⟨h.1, rfl⟩

/-! ## C1: cell paragraph counts in the splitting exporter -/

theorem splitNl_ne_nil : ∀ (l : List Char), splitNl l ≠ []
  | [] => by simp [splitNl]
  | c :: rest => by
    simp only [splitNl]
    split
    · simp
    · cases hsplit : splitNl rest with
      | nil => simp
      | cons w ws => simp

theorem length_splitNl : ∀ (l : List Char),
    (splitNl l).length = l.count '\n' + 1
  | [] => rfl
  | c :: rest => by
    simp only [splitNl]
    by_cases h : c = '\n'
    · rw [if_pos h, List.length_cons, length_splitNl rest, h]
      simp [List.count_cons]
    · rw [if_neg h]
      cases hsplit : splitNl rest with
      | nil => exact absurd hsplit (splitNl_ne_nil rest)
      | cons w ws =>
        show ((c :: w) :: ws).length = List.count '\n' (c :: rest) + 1
        have h2 := length_splitNl rest
        rw [hsplit] at h2
        simp only [List.length_cons] at h2 ⊢
        rw [List.count_cons, if_neg (by simpa using h)]
        omega

theorem length_mapButLast (f : List Char → List Char) :
    ∀ (ws : List (List Char)), (mapButLast f ws).length = ws.length
  | [] => rfl
  | [a] => rfl
  | a :: b :: rest => by
    simp only [mapButLast, List.length_cons]
    have := length_mapButLast f (b :: rest)
    simp only [List.length_cons] at this
    omega

theorem length_splitCrNl (l : List Char) :
    (splitCrNl l).length = l.count '\n' + 1 := by
  rw [splitCrNl, length_mapButLast, length_splitNl]

theorem length_createParagraphsFromText (t : String) (isRtl : Bool)
    (alignment : AlignmentType) :
    (Part000.createParagraphsFromText t isRtl alignment).length =
      lineBreakCount t + 1 := by
  rw [Part000.createParagraphsFromText, List.length_map, length_splitCrNl,
    lineBreakCount]

/-- C1.  In the exporter variant that splits cell text
(`createParagraphsFromText`), every body pair gets a table row whose
Arabic cell holds one paragraph per line of the Arabic text — k internal
line breaks give k + 1 paragraphs, hence k + 1 visual lines — and whose
English cell likewise holds one paragraph per line of the English text. -/
theorem c1_cell_line_counts (data : List TranslationPair)
    (pair : TranslationPair) (h : pair ∈ Part000.bodyPairs data) :
    Part000.tableRowOfPair pair ∈ Part000.tableRows data ∧
    (Part000.tableRowOfPair pair).cells.map
        (fun cell => cell.children.length) =
      [lineBreakCount pair.arabic + 1, lineBreakCount pair.english + 1] := by
  constructor
  · exact List.mem_map_of_mem Part000.tableRowOfPair h
  · show [(Part000.createParagraphsFromText pair.arabic true
        AlignmentType.right).length,
      (Part000.createParagraphsFromText pair.english false
        AlignmentType.left).length] =
      [lineBreakCount pair.arabic + 1, lineBreakCount pair.english + 1]
    rw [length_createParagraphsFromText, length_createParagraphsFromText]

/-- Witness for C1: a two-pair sequence whose body pair has one line break
in the Arabic text (`\n`) and one in the English text (`\r\n`); the row's
cells get two paragraphs each. -/
theorem c1_cell_line_counts_witness :
    Part000.tableRowOfPair { arabic := "a\nb", english := "x\r\ny" } ∈
      Part000.tableRows [{ arabic := "t", english := "t" },
        { arabic := "a\nb", english := "x\r\ny" }] ∧
    (Part000.tableRowOfPair { arabic := "a\nb", english := "x\r\ny" }).cells.map
        (fun cell => cell.children.length) = [2, 2] := by
  have h := c1_cell_line_counts
    [{ arabic := "t", english := "t" }, { arabic := "a\nb", english := "x\r\ny" }]
    { arabic := "a\nb", english := "x\r\ny" } (by decide)
  exact ⟨h.1, h.2⟩
